import Mathlib

/-!
Verification development for a hierarchical state machine engine
(`dsm.hpp`).  The engine is shallowly embedded: states are identified by
natural-number kind ids (the engine keys states by a per-kind
`std::type_index`; the uniqueness invariant makes kind = identity), the
object graph of `StateBase` nodes is a finite association list from id to
node record, and every recursive pointer walk of the C++ code is given an
explicit fuel argument (the walks terminate in C++ because the graph is a
tree; fuel makes the same functions total here).  User callbacks
(`onEntry`, `onExit`, `onError`, guards, actions) are modelled by the
trace of their invocations; guards and actions carry first-order outcome
descriptions (return value / raise, plus the engine calls an action body
performs).  Triggering-event bookkeeping (`m_trigEvent`), naming and
logging are dropped: no engine decision depends on them.
-/

namespace DSM

/-- State identity (models the per-kind `std::type_index` of a state). -/
abbrev Sid := Nat

/-- Event identity (models the per-kind `std::type_index` of an event). -/
abbrev Eid := Nat

/-- History type: either Shallow or Deep (enum `dsm::History`). -/
inductive Hist where
  | shallow
  | deep
deriving DecidableEq, Repr

/-- A region inside a state (struct `StateBase::Region`): entry sub-state,
current sub-state, last visited sub-state, optional history type, and the
children map (`std::map<std::type_index, StateBase*>`, modelled as the
list of child ids in key order). -/
structure Reg where
  rentry : Option Sid
  rcurrent : Option Sid
  rlast : Option Sid
  rhist : Option Hist
  rchildren : List Sid
deriving DecidableEq, Repr

/-- Engine calls an action body may perform (`postEvent` / `deferEvent`
invoked from inside a user callback). -/
inductive ECall where
  | post (e : Eid)
  | defer (e : Eid)
deriving DecidableEq, Repr

/-- Outcome of a user guard: return a boolean, or raise. -/
inductive GuardB where
  | ret (b : Bool)
  | raise
deriving DecidableEq, Repr

/-- Behaviour of a user action: the engine calls it performs, and whether
it raises at the end. -/
structure ActionB where
  calls : List ECall
  raises : Bool
deriving DecidableEq, Repr

/-- `StateBase::TransitionData`: common ancestor, source-outermost
(nullable), destination-outermost, source (nullable: the root-`transit`
variant stores the possibly-null region current here) and destination. -/
structure TData where
  ca : Sid
  srcOut : Option Sid
  dstOut : Sid
  tsrc : Option Sid
  tdst : Sid
deriving DecidableEq, Repr

/-- A transition record (class `details::Transition` plus the data its
callback closure captures): owning source state, event kind, destination,
action-holder state, guard and action behaviour, and the `TransitionData`
captured at creation time (`none` for an internal transition, where the
callback performs no transit). -/
structure Trans where
  tsrcSt : Sid
  tevt : Eid
  tdst : Sid
  tholder : Sid
  tguard : Option GuardB
  taction : Option ActionB
  tdata : Option TData
deriving DecidableEq, Repr

/-- A state node (class `StateBase`): started flag, entry-point flag,
region index within the parent, parent state, regions map
(`std::map<int, Region*>` in key order) and transitions map
(`std::map<std::type_index, TransitionBase*>`). -/
structure Node where
  nstarted : Bool
  nentry : Bool
  nregIdx : Nat
  nparent : Option Sid
  nregions : List (Nat × Reg)
  ntrans : List (Eid × Trans)
deriving DecidableEq, Repr

/-- A queued `details::PostedTransition`: either a posted/deferred event,
or an enqueued transit closure (which captured a `TransitionData`). -/
inductive Item where
  | evt (e : Eid) (deferred : Bool)
  | closure (td : TData)
deriving DecidableEq, Repr

/-- One observed user-callback invocation. -/
inductive TraceEv where
  | enter (s : Sid)
  | leave (s : Sid)
  | error (s : Sid)
  | guardRun (s : Sid)
  | actionRun (s : Sid)
deriving DecidableEq, Repr

/-- The whole machine (the `StateMachine` object together with the heap of
its states): node registry, root id, the `m_processing` flag, the posted
and pending queues, and the callback trace. -/
structure M where
  nodes : List (Sid × Node)
  rootId : Sid
  processing : Bool
  posted : List Item
  pending : List Item
  trace : List TraceEv
deriving DecidableEq, Repr

/-- Association-list lookup (models `std::map::find`). -/
def lookupA {α : Type} (l : List (Nat × α)) (k : Nat) : Option α :=
  (l.find? (fun p => p.1 == k)).map (fun p => p.2)

/-- In-place update of an association list entry. -/
def updateA {α : Type} (l : List (Nat × α)) (k : Nat) (f : α → α) :
    List (Nat × α) :=
  l.map (fun p => if p.1 == k then (p.1, f p.2) else p)

/-- Sorted insertion into an association list (models `std::map`
insertion keeping key order). -/
def insertA {α : Type} (k : Nat) (v : α) : List (Nat × α) → List (Nat × α)
  | [] => [(k, v)]
  | (k1, v1) :: t =>
      if k < k1 then (k, v) :: (k1, v1) :: t else (k1, v1) :: insertA k v t

/-- Sorted insertion of a child id into a region's children list. -/
def insertChild (c : Sid) : List Sid → List Sid
  | [] => [c]
  | c1 :: t => if c < c1 then c :: c1 :: t else c1 :: insertChild c t

/-- Fetch a state node. -/
def getNode (m : M) (s : Sid) : Option Node :=
  lookupA m.nodes s

/-- Update a state node in place. -/
def setNode (m : M) (s : Sid) (f : Node → Node) : M :=
  { m with nodes := updateA m.nodes s f }

/-- Fetch a region, addressed by its parent state and region index. -/
def getReg (m : M) (s : Sid) (ri : Nat) : Option Reg :=
  (getNode m s).bind (fun nd => lookupA nd.nregions ri)

/-- Update a region in place. -/
def setReg (m : M) (s : Sid) (ri : Nat) (f : Reg → Reg) : M :=
  setNode m s (fun nd => { nd with nregions := updateA nd.nregions ri f })

/-- `StateBase::started` of a given state (false for an unknown id). -/
def startedOf (m : M) (s : Sid) : Bool :=
  ((getNode m s).map (fun nd => nd.nstarted)).getD false

/-- `m_entry` flag of a given state. -/
def entryOf (m : M) (s : Sid) : Bool :=
  ((getNode m s).map (fun nd => nd.nentry)).getD false

/-- `m_parentState` of a given state. -/
def parentOf (m : M) (s : Sid) : Option Sid :=
  (getNode m s).bind (fun nd => nd.nparent)

/-- `m_regionIndex` of a given state. -/
def regIdxOf (m : M) (s : Sid) : Nat :=
  ((getNode m s).map (fun nd => nd.nregIdx)).getD 0

/-- Region indices of a state, in `std::map` key order. -/
def regionIdxs (m : M) (s : Sid) : List Nat :=
  ((getNode m s).map (fun nd => nd.nregions.map (fun p => p.1))).getD []

/-- Append a trace event. -/
def pushTrace (m : M) (t : TraceEv) : M :=
  { m with trace := m.trace ++ [t] }

/-- History-propagation helper (`StateBase::Propagate`): true if the flag
is already set or the region has deep history. -/
def Propagate (propagateHistory : Bool) (r : Reg) : Bool :=
  propagateHistory || r.rhist == some Hist.deep

/-- `StateBase::contains`: does the subtree rooted at `s` contain `t`?
Checks `s` itself, then recurses through every region's children
(`Region::contains`). -/
def containsF : Nat → M → Sid → Sid → Bool
  | 0, _, _, _ => false
  | fuel + 1, m, s, t =>
      s == t ||
        match getNode m s with
        | none => false
        | some nd =>
            nd.nregions.any (fun p =>
              p.2.rchildren.any (fun c => containsF fuel m c t))

/-- `getDescendantImpl<StateType>` searched from `s`: the recursive
traversal visits exactly the subtree of `s` comparing kind ids, so with
kind = identity it returns the node of id `x` iff the subtree contains
`x`. -/
def findDescF (fuel : Nat) (m : M) (s x : Sid) : Option Sid :=
  if containsF fuel m s x then some x else none

/-- `Region::getOutermost`: first child of the region (in children map
order) other than `skipped` whose subtree contains `inner`. -/
def getOutermost (fuel : Nat) (m : M) (r : Reg) (inner skipped : Sid) :
    Option Sid :=
  r.rchildren.find? (fun c => c != skipped && containsF fuel m c inner)

/-- `StateBase::stopImpl`: recursively stop every region's current child
(`Region::stop` saves the last-visited child and clears the current one),
then run the exit job, then clear the started flag. -/
def stopImplF : Nat → M → Sid → M
  | 0, m, _ => m
  | fuel + 1, m, s =>
      let m1 := (regionIdxs m s).foldl
        (fun acc ri =>
          match getReg acc s ri with
          | none => acc
          | some r =>
              let acc1 :=
                match r.rcurrent with
                | some c => stopImplF fuel acc c
                | none => acc
              setReg acc1 s ri
                (fun r1 => { r1 with rlast := r1.rcurrent, rcurrent := none }))
        m
      let m2 := pushTrace m1 (TraceEv.leave s)
      setNode m2 s (fun nd => { nd with nstarted := false })

/-- `Region::start` written with the child-starting continuation passed
in: pick the child to make current (an explicitly provided state, or the
last-visited one when history applies, or the entry child) and start it. -/
def regionStart (m : M) (s : Sid) (ri : Nat) (propagateHistory : Bool)
    (stateToStart : Option Sid) (startChild : M → Sid → Bool → M) : M :=
  match getReg m s ri with
  | none => m
  | some r =>
      let cur : Option Sid :=
        match stateToStart with
        | none =>
            if r.rlast ≠ none && (r.rhist ≠ none || propagateHistory) then
              r.rlast
            else r.rentry
        | some st => if r.rchildren.contains st then some st else none
      let m1 := setReg m s ri (fun r1 => { r1 with rcurrent := cur })
      match cur with
      | some c => startChild m1 c (Propagate propagateHistory r)
      | none => m1

/-- `StateBase::startImpl`: set the started flag, run the entry job, and
(when `recurse`) start every region in index order. -/
def startImplF : Nat → M → Sid → Bool → Bool → M
  | 0, m, _, _, _ => m
  | fuel + 1, m, s, propagateHistory, recurse =>
      let m1 := setNode m s (fun nd => { nd with nstarted := true })
      let m2 := pushTrace m1 (TraceEv.enter s)
      if recurse then
        (regionIdxs m2 s).foldl
          (fun acc ri =>
            regionStart acc s ri propagateHistory none
              (fun m' c p => startImplF fuel m' c p true))
          m2
      else m2

/-- The parent region of a state, as a region address (parent state id,
region index) together with the region record. -/
def parentRegOf (m : M) (s : Sid) : Option (Sid × Nat × Reg) :=
  match parentOf m s with
  | none => none
  | some p =>
      match getReg m p (regIdxOf m s) with
      | none => none
      | some r => some (p, regIdxOf m s, r)

/-- `StateBase::startAncestors`: walk up from the destination to the
common ancestor, then (unwinding top-down) mark each intermediate state
current in its parent region, enter it without recursing, start its other
regions, and finally start the destination through its parent region.
The C++ by-reference `propagateHistory` flag is the returned boolean. -/
def startAncestorsF : Nat → M → Sid → TData → Sid → Bool → M × Bool
  | 0, m, _, _, _, propagateHistory => (m, propagateHistory)
  | fuel + 1, m, self, td, previous, propagateHistory =>
      if self == td.ca then (m, propagateHistory)
      else
        match parentOf m self with
        | none => (m, propagateHistory)
        | some par =>
            let r1 := startAncestorsF fuel m par td self propagateHistory
            let m1 := r1.1
            let p1 := r1.2
            let prop :=
              match getReg m1 par (regIdxOf m1 self) with
              | some r => Propagate p1 r
              | none => p1
            if self == td.tdst then
              (regionStart m1 par (regIdxOf m1 self) prop (some self)
                (fun m' c p => startImplF fuel m' c p true), p1)
            else
              let m2 := setReg m1 par (regIdxOf m1 self)
                (fun r => { r with rcurrent := some self })
              let m3 := startImplF fuel m2 self false false
              let m4 := (regionIdxs m3 self).foldl
                (fun acc ri =>
                  if ri == regIdxOf acc previous then acc
                  else
                    regionStart acc self ri prop none
                      (fun m' c p => startImplF fuel m' c p true))
                m3
              (m4, prop)

/-- `StateBase::transitImpl`: at the common ancestor, stop the started
source-outermost subtree and start the destination branch; otherwise
recurse into each region's current child, stopping at the first success. -/
def transitImplF : Nat → M → Sid → TData → Bool → M × Bool
  | 0, m, _, _, _ => (m, false)
  | fuel + 1, m, self, td, propagateHistory =>
      if self == td.ca then
        let m1 :=
          match td.srcOut with
          | some so => if startedOf m so then stopImplF fuel m so else m
          | none => m
        let prop :=
          match parentRegOf m1 td.dstOut with
          | some pr => Propagate propagateHistory pr.2.2
          | none => propagateHistory
        ((startAncestorsF fuel m1 td.tdst td self prop).1, true)
      else
        (regionIdxs m self).foldl
          (fun acc ri =>
            if acc.2 then acc
            else
              match getReg acc.1 self ri with
              | none => acc
              | some r =>
                  match r.rcurrent with
                  | some c =>
                      transitImplF fuel acc.1 c td (Propagate propagateHistory r)
                  | none => acc)
          (m, false)

/-- Two-argument `StateBase::getTransitionData` (build-time resolution),
with the subtree-search fuel `cf` separated from the upward-walk fuel:
called with `cur` initially the destination, walk up the parent chain; at
each level look in the current node's parent region for a sibling subtree
containing the source; on success the common ancestor is the parent. -/
def getTransitionData2A (cf : Nat) : Nat → M → Sid → Sid → Sid → Option TData
  | 0, _, _, _, _ => none
  | fuel + 1, m, cur, src, dst =>
      match parentOf m cur with
      | none => none
      | some p =>
          match getReg m p (regIdxOf m cur) with
          | none => none
          | some r =>
              match getOutermost cf m r src cur with
              | none => getTransitionData2A cf fuel m p src dst
              | some so =>
                  some { ca := p, srcOut := some so, dstOut := cur,
                         tsrc := some src, tdst := dst }

/-- Two-argument `StateBase::getTransitionData` with a single fuel. -/
def getTransitionData2 (fuel : Nat) : M → Sid → Sid → Sid → Option TData :=
  getTransitionData2A fuel fuel

/-- One-argument `StateBase::getTransitionData` (transit requested from
the machine itself): walk up from the destination to its first started
ancestor; the source-outermost is that ancestor's current child. -/
def getTransitionData1 : Nat → M → Sid → Sid → Option TData
  | 0, _, _, _ => none
  | fuel + 1, m, cur, dst =>
      match parentOf m cur with
      | none => none
      | some p =>
          if !(startedOf m p) then getTransitionData1 fuel m p dst
          else
            let so := (getReg m p (regIdxOf m cur)).bind (fun r => r.rcurrent)
            some { ca := p, srcOut := so, dstOut := cur, tsrc := so, tdst := dst }

/-- `State::postEvent`, parametrised by the dispatcher used on the
not-processing path (the engine there runs `processEventImpl` directly,
with no drain loop). -/
def postEventCore (dispatchE : M → Eid → M × Bool) (m : M) (e : Eid) : M :=
  if !(startedOf m m.rootId) then m
  else if !m.processing then
    let m1 := { m with processing := true }
    let m2 := (dispatchE m1 e).1
    { m2 with processing := false }
  else { m with posted := m.posted ++ [Item.evt e false] }

/-- `State::deferEvent`, parametrised like `postEventCore`: outside
processing, dispatch immediately and queue the event (deferred) only when
no transition fired; inside processing, queue it deferred. -/
def deferEventCore (dispatchE : M → Eid → M × Bool) (m : M) (e : Eid) : M :=
  if !(startedOf m m.rootId) then m
  else if !m.processing then
    let m1 := { m with processing := true }
    let r := dispatchE m1 e
    let m2 := if !r.2 then { r.1 with posted := r.1.posted ++ [Item.evt e true] }
              else r.1
    { m2 with processing := false }
  else { m with posted := m.posted ++ [Item.evt e true] }

/-- Run the engine calls of an action body. -/
def applyCalls (dispatchE : M → Eid → M × Bool) (m : M) (cs : List ECall) : M :=
  cs.foldl
    (fun acc c =>
      match c with
      | ECall.post e => postEventCore dispatchE acc e
      | ECall.defer e => deferEventCore dispatchE acc e)
    m

/-- The combined transition closure built by `State::createTransitionImpl`
(both the external and the internal variant): check the guard, run the
action, then — externally — perform the captured transit from the top
state machine.  Any raise from guard or action is caught; `onError` runs
on the transition's source state and the closure returns false. -/
def execCbF (fuel : Nat) (dispatchE : M → Eid → M × Bool) (m : M)
    (t : Trans) : M × Bool :=
  let errSt :=
    match t.tdata with
    | some td => td.tsrc.getD t.tsrcSt
    | none => t.tsrcSt
  match t.tguard with
  | some GuardB.raise => (pushTrace (pushTrace m (TraceEv.guardRun t.tholder)) (TraceEv.error errSt), false)
  | some (GuardB.ret false) => (pushTrace m (TraceEv.guardRun t.tholder), false)
  | _ =>
      let m1 :=
        match t.tguard with
        | some (GuardB.ret true) => pushTrace m (TraceEv.guardRun t.tholder)
        | _ => m
      match t.taction with
      | some a =>
          let m2 := pushTrace m1 (TraceEv.actionRun t.tholder)
          let m3 := applyCalls dispatchE m2 a.calls
          if a.raises then (pushTrace m3 (TraceEv.error errSt), false)
          else
            match t.tdata with
            | some td => transitImplF fuel m3 m3.rootId td false
            | none => (m3, true)
      | none =>
          match t.tdata with
          | some td => transitImplF fuel m1 m1.rootId td false
          | none => (m1, true)

/-- `StateBase::processEventImpl`: look the event kind up in the state's
transition map and run its closure; if it did not fire, recurse into each
region's current child, OR-combining the results. -/
def processEventImplF : Nat → M → Sid → Eid → Bool → M × Bool
  | 0, m, _, _, _ => (m, false)
  | fuel + 1, m, s, e, propagateHistory =>
      let step :=
        match (getNode m s).bind (fun nd => lookupA nd.ntrans e) with
        | some t =>
            execCbF fuel
              (fun m' e' => processEventImplF fuel m' m'.rootId e' false) m t
        | none => (m, false)
      if step.2 then (step.1, true)
      else
        (regionIdxs step.1 s).foldl
          (fun acc ri =>
            match getReg acc.1 s ri with
            | none => acc
            | some r =>
                match r.rcurrent with
                | some c =>
                    let r1 := processEventImplF fuel acc.1 c e
                      (Propagate propagateHistory r)
                    (r1.1, acc.2 || r1.2)
                | none => acc)
          (step.1, false)

/-- One pass of the inner drain loop of `StateMachine::processEvent` over
the pending deque: posted/deferred events are re-dispatched (removed on a
match, removed also when not deferred, retained when deferred and
unmatched); pending transit closures are executed and removed.  Returns
the machine after all the dispatches and the retained pending list. -/
def drainPassF (fuel : Nat) (m : M) : List Item → M × List Item
  | [] => (m, [])
  | Item.evt e d :: rest =>
      let r := processEventImplF fuel m m.rootId e false
      if !d || r.2 then drainPassF fuel r.1 rest
      else
        let k := drainPassF fuel r.1 rest
        (k.1, Item.evt e d :: k.2)
  | Item.closure td :: rest =>
      let r := transitImplF fuel m m.rootId td false
      drainPassF fuel r.1 rest

/-- The outer do-while drain loop of `StateMachine::processEvent`: move
the posted queue onto the pending deque, run one pass, and repeat while
new items were posted.  `loops` is fuel for the outer loop (the C++ loop
need not terminate if callbacks keep posting). -/
def drainLoopF (fuel : Nat) : Nat → M → M
  | 0, m => m
  | loops + 1, m =>
      let m1 := { m with pending := m.pending ++ m.posted, posted := [] }
      let r := drainPassF fuel m1 m1.pending
      let m2 := { r.1 with pending := r.2 }
      if m2.posted.isEmpty then m2 else drainLoopF fuel loops m2

/-- `StateMachine::processEvent`: when started, enter processing mode,
dispatch the event from the root, drain the queues, leave processing
mode. -/
def processEventF (fuel loops : Nat) (m : M) (e : Eid) : M :=
  if !(startedOf m m.rootId) then m
  else
    let m1 := { m with processing := true }
    let m2 := (processEventImplF fuel m1 m1.rootId e false).1
    let m3 := drainLoopF fuel loops m2
    { m3 with processing := false }

/-- `State::postEvent` with the engine's own dispatcher. -/
def postEventF (fuel : Nat) (m : M) (e : Eid) : M :=
  postEventCore (fun m' e' => processEventImplF fuel m' m'.rootId e' false) m e

/-- `State::deferEvent` with the engine's own dispatcher. -/
def deferEventF (fuel : Nat) (m : M) (e : Eid) : M :=
  deferEventCore (fun m' e' => processEventImplF fuel m' m'.rootId e' false) m e

/-- `State::transit<DstState>` invoked on state `s` (`s = rootId` models
the call made on the machine itself): no-op unless the machine is
started, the destination exists, is not already started and transition
data can be resolved; then either run the transit immediately (outside
processing) or queue the captured closure. -/
def transitF (fuel : Nat) (m : M) (s : Sid) (dst : Sid) : M :=
  if !(startedOf m m.rootId) then m
  else
    match findDescF fuel m m.rootId dst with
    | none => m
    | some d =>
        if startedOf m d then m
        else
          match
            (if s == m.rootId then getTransitionData1 fuel m d d
             else getTransitionData2 fuel m d s d) with
          | none => m
          | some td =>
              if !m.processing then
                let m1 := { m with processing := true }
                let m2 := (transitImplF fuel m1 m1.rootId td false).1
                { m2 with processing := false }
              else { m with posted := m.posted ++ [Item.closure td] }

/-- `StateMachine::start`: no-op when already started, else recursive
start from the root with no triggering event and no history propagation. -/
def startM (fuel : Nat) (m : M) : M :=
  if startedOf m m.rootId then m
  else startImplF fuel m m.rootId false true

/-- `StateMachine::stop`: no-op when not started, else recursive stop
from the root. -/
def stopM (fuel : Nat) (m : M) : M :=
  if !(startedOf m m.rootId) then m
  else stopImplF fuel m m.rootId

/-- A freshly created region (`new Region()`). -/
def emptyReg : Reg :=
  { rentry := none, rcurrent := none, rlast := none, rhist := none,
    rchildren := [] }

/-- Engine-detected builder errors are surfaced through `onError` on the
machine itself. -/
def errRoot (m : M) : M :=
  pushTrace m (TraceEv.error m.rootId)

/-- `StateMachine::addState` (all overloads; `parent = none` is the
overload that adds directly under the machine): no-op when started;
resolve the parent; `createStateImpl` rejects a kind that already exists
anywhere; `StateBase::addState` then finds or creates the region,
rejects a second entry child in an existing region, and links the new
node into the region (entry pointer included).  Every rejection raises
before any mutation, is caught, and reports through `onError` on the
machine. -/
def addStateF (fuel : Nat) (m : M) (parent : Option Sid) (child : Sid)
    (ri : Nat) (entry : Bool) : M :=
  if startedOf m m.rootId then m
  else
    match
      (match parent with
       | none => some m.rootId
       | some p => findDescF fuel m m.rootId p) with
    | none => errRoot m
    | some pid =>
        if (findDescF fuel m m.rootId child).isSome then errRoot m
        else
          let nd : Node :=
            { nstarted := false, nentry := entry, nregIdx := ri,
              nparent := some pid, nregions := [], ntrans := [] }
          let link : M → M := fun mr =>
            let m2 := { mr with nodes := insertA child nd mr.nodes }
            setReg m2 pid ri (fun r =>
              { r with rchildren := insertChild child r.rchildren,
                       rentry := if entry then some child else r.rentry })
          match getReg m pid ri with
          | some r =>
              if entry && r.rchildren.any (fun c => entryOf m c) then errRoot m
              else link m
          | none =>
              link (setNode m pid (fun n =>
                { n with nregions := insertA ri emptyReg n.nregions }))

/-- `StateMachine::addTransition` (all overloads): no-op when started;
`createTransitionImpl` rejects a missing source / destination /
action-holder state, an action holder that does not contain the source,
and (for an external transition) an unresolvable `TransitionData`;
`StateBase::addTransition` then rejects a second transition for the same
event on the source state (`std::map::insert` leaves the map unchanged).
Every rejection is caught and reported through `onError` on the machine. -/
def addTransitionF (fuel : Nat) (m : M) (src : Sid) (e : Eid) (dst : Sid)
    (holder : Sid) (g : Option GuardB) (a : Option ActionB) : M :=
  if startedOf m m.rootId then m
  else if (findDescF fuel m m.rootId src).isNone then errRoot m
  else if (findDescF fuel m m.rootId dst).isNone then errRoot m
  else if (findDescF fuel m m.rootId holder).isNone then errRoot m
  else if !(containsF fuel m holder src) then errRoot m
  else
    let data? : Option (Option TData) :=
      if src != dst then
        match getTransitionData2 fuel m dst src dst with
        | none => none
        | some td => some (some td)
      else some none
    match data? with
    | none => errRoot m
    | some td? =>
        let t : Trans :=
          { tsrcSt := src, tevt := e, tdst := dst, tholder := holder,
            tguard := g, taction := a, tdata := td? }
        match (getNode m src).bind (fun nd => lookupA nd.ntrans e) with
        | some _ => errRoot m
        | none =>
            setNode m src (fun nd => { nd with ntrans := insertA e t nd.ntrans })

/-- `Region::getDeepAncestor` for the region addressed by
(`s`, `ri`): the region itself if it has deep history, else the parent
region chain upward. -/
def getDeepAncestorF : Nat → M → Sid → Nat → Option (Sid × Nat)
  | 0, _, _, _ => none
  | fuel + 1, m, s, ri =>
      match getReg m s ri with
      | none => none
      | some r =>
          if r.rhist == some Hist.deep then some (s, ri)
          else
            match parentOf m s with
            | some p => getDeepAncestorF fuel m p (regIdxOf m s)
            | none => none

/-- `Region::getDeepDescendant`: the region itself if it has deep
history, else the first region below it (children in map order, their
regions in index order) that does. -/
def getDeepDescendantF : Nat → M → Sid → Nat → Option (Sid × Nat)
  | 0, _, _, _ => none
  | fuel + 1, m, s, ri =>
      match getReg m s ri with
      | none => none
      | some r =>
          if r.rhist == some Hist.deep then some (s, ri)
          else
            r.rchildren.findSome? (fun c =>
              (regionIdxs m c).findSome? (fun ri2 =>
                getDeepDescendantF fuel m c ri2))

/-- `Region::setHistory`: Deep is rejected when the region itself, an
ancestor or a descendant already has deep history; Shallow is rejected
when the region itself or an ancestor has deep history (the ancestor walk
checks the region itself first).  On rejection nothing changes; on
success the history is stored and the last-visited marker cleared. -/
def setHistoryRegF (fuel : Nat) (m : M) (s : Sid) (ri : Nat)
    (h : Option Hist) : M :=
  match getReg m s ri with
  | none => m
  | some _ =>
      if h == some Hist.deep &&
          ((getDeepAncestorF fuel m s ri).isSome ||
            (getDeepDescendantF fuel m s ri).isSome) then m
      else if h == some Hist.shallow &&
          (getDeepAncestorF fuel m s ri).isSome then m
      else
        setReg m s ri (fun r => { r with rhist := h, rlast := none })

/-- `StateMachine::setHistory<StateType, RegionIndex>`: no-op when
started or when the state or region is not found; otherwise delegate to
the region. -/
def setHistoryM (fuel : Nat) (m : M) (s : Sid) (ri : Nat)
    (h : Option Hist) : M :=
  if startedOf m m.rootId then m
  else
    match findDescF fuel m m.rootId s with
    | none => m
    | some st =>
        match getReg m st ri with
        | none => m
        | some _ => setHistoryRegF fuel m st ri h

/-- `StateBase::checkStatesImpl`: resolve each requested kind as a
descendant of the previously found state, requiring it to be distinct
from it, started, and (when a previous state exists) its direct child. -/
def checkStatesImplF (fuel : Nat) (m : M) : Sid → Option Sid → List Sid → Bool
  | cur, _, [] => startedOf m cur
  | cur, prev, x :: rest =>
      match findDescF fuel m cur x with
      | none => false
      | some s =>
          if some s == prev then false
          else if !(startedOf m s) then false
          else if prev.isSome && !(parentOf m s == prev) then false
          else
            match rest with
            | [] => true
            | _ => checkStatesImplF fuel m s (some s) rest

/-- `State::checkStates` called on the machine: an empty pack yields
false; a pack starting with the machine's own kind starts the chain at
the root with the root as previous state; otherwise the whole pack is
checked from the root with no previous state. -/
def checkStatesF (fuel : Nat) (m : M) : List Sid → Bool
  | [] => false
  | x :: rest =>
      if x == m.rootId then checkStatesImplF fuel m m.rootId (some m.rootId) rest
      else checkStatesImplF fuel m m.rootId none (x :: rest)

/-- A fresh machine holding only its root state (the `StateMachine`
object itself). -/
def emptyM (root : Sid) : M :=
  { nodes := [(root,
      { nstarted := false, nentry := false, nregIdx := 0, nparent := none,
        nregions := [], ntrans := [] })],
    rootId := root, processing := false, posted := [], pending := [],
    trace := [] }

/-- The active configuration: ids of all started states, in registry
order. -/
def activeIds (m : M) : List Sid :=
  (m.nodes.filter (fun p => p.2.nstarted)).map (fun p => p.1)

/-!  Specification-side definitions, written from the specification's
vocabulary and used to state the refinement theorems. -/

/-- The upward ancestor walk from a state, as the list of
(state, parent) levels the resolver visits: the walk ends at the root
(no parent) or at a level whose parent region cannot be fetched. -/
def ancRegChain : Nat → M → Sid → List (Sid × Sid)
  | 0, _, _ => []
  | fuel + 1, m, cur =>
      match parentOf m cur with
      | none => []
      | some p =>
          match getReg m p (regIdxOf m cur) with
          | none => []
          | some _ => (cur, p) :: ancRegChain fuel m p

/-- Does the region of `pr.2` holding the branch child `pr.1` contain,
under a different child, the state `src`?  (The spec-side reading of one
resolver level.) -/
def levelHasPeer (cf : Nat) (m : M) (src : Sid) (pr : Sid × Sid) : Bool :=
  match getReg m pr.2 (regIdxOf m pr.1) with
  | none => false
  | some r => (getOutermost cf m r src pr.1).isSome

/-- Spec-side chain check for `check_states`: each listed state is
started and a direct child of the previous one. -/
def chainOk (m : M) : Sid → List Sid → Bool
  | _, [] => true
  | p, x :: rest =>
      startedOf m x && (parentOf m x == some p) && chainOk m x rest

/-- Spec-side reading of `check_states<S1, …, Sn>`: S1 is a started
descendant of the root and every following state is a started direct
child of its predecessor. -/
def specCheckStates (fuel : Nat) (m : M) : List Sid → Bool
  | [] => false
  | x :: rest =>
      containsF fuel m m.rootId x && startedOf m x && chainOk m x rest

/-- The chain of regions containing a region, the region itself first
(spec-side reading of the ancestor walk of `setHistory`). -/
def regAncestors : Nat → M → Sid → Nat → List (Sid × Nat)
  | 0, _, _, _ => []
  | fuel + 1, m, s, ri =>
      match getReg m s ri with
      | none => []
      | some _ =>
          (s, ri) ::
            (match parentOf m s with
             | some p => regAncestors fuel m p (regIdxOf m s)
             | none => [])

/-- Does the addressed region carry deep history? -/
def regIsDeep (m : M) (a : Sid × Nat) : Bool :=
  ((getReg m a.1 a.2).map (fun r => r.rhist)).getD none == some Hist.deep

/-- Instrumentation of one drain pass: each pending item paired with the
result of the dispatch (or transit execution) it received, in order, with
the machine evolving exactly as in `drainPassF`. -/
def passResults (fuel : Nat) (m : M) : List Item → List (Item × Bool)
  | [] => []
  | Item.evt e d :: rest =>
      let r := processEventImplF fuel m m.rootId e false
      (Item.evt e d, r.2) :: passResults fuel r.1 rest
  | Item.closure td :: rest =>
      let r := transitImplF fuel m m.rootId td false
      (Item.closure td, r.2) :: passResults fuel r.1 rest

/-- Is a queue item a deferred event? -/
def isDefEvt : Item → Bool
  | Item.evt _ d => d
  | Item.closure _ => false

/-- Parent/child coherence: every node's parent pointer is matched by a
membership in the parent's region of the node's region index. -/
def coherentB (m : M) : Bool :=
  m.nodes.all (fun p =>
    match p.2.nparent with
    | none => true
    | some q =>
        match getReg m q p.2.nregIdx with
        | some r => r.rchildren.contains p.1
        | none => false)

/-- No state is its own parent. -/
def selfParentFreeB (m : M) : Bool :=
  m.nodes.all (fun p => p.2.nparent != some p.1)

/-- Any started state forces the root to be started (the active
configuration is a subtree at the root). -/
def rootStartGuardB (m : M) : Bool :=
  m.nodes.all (fun p => !p.2.nstarted || startedOf m m.rootId)

/-!  Concrete machines used by the scenario theorems, the counterexamples
and the witnesses.  Ids: root = 0; further states and events are numbered
as in each scenario. -/

/-- Scenario S2 of the spec (root region with shallow history):
s0 = 1 (entry), s1 = 2, s2 = 3 (entry of s1), s3 = 4; events e0 = 0,
e1 = 1, e2 = 2, e3 = 3; transitions s0-e0→s1, s1-e1→s0, s2-e2→s3,
s3-e3→s2. -/
def scenarioS2 : M :=
  let m := emptyM 0
  let m := addStateF 20 m none 1 0 true
  let m := addStateF 20 m none 2 0 false
  let m := addStateF 20 m (some 2) 3 0 true
  let m := addStateF 20 m (some 2) 4 0 false
  let m := addTransitionF 20 m 1 0 2 1 none none
  let m := addTransitionF 20 m 2 1 1 2 none none
  let m := addTransitionF 20 m 3 2 4 3 none none
  let m := addTransitionF 20 m 4 3 3 4 none none
  setHistoryM 20 m 0 0 (some Hist.shallow)

/-- Machine for the C1 counterexample: s0 = 1 (entry), s1 = 2, external
transition s0-e0→s1 whose action raises. -/
def cexMachC1 : M :=
  let m := emptyM 0
  let m := addStateF 20 m none 1 0 true
  let m := addStateF 20 m none 2 0 false
  addTransitionF 20 m 1 0 2 1 none (some { calls := [], raises := true })

/-- Machine for the C2 failing input: s0 = 1 (entry), s1 = 2, s2 = 3;
s0-e0→s1 with an action that posts e1; s1-e1→s2. -/
def cexMachC2 : M :=
  let m := emptyM 0
  let m := addStateF 20 m none 1 0 true
  let m := addStateF 20 m none 2 0 false
  let m := addStateF 20 m none 3 0 false
  let m := addTransitionF 20 m 1 0 2 1 none
    (some { calls := [ECall.post 1], raises := false })
  addTransitionF 20 m 2 1 3 2 none none

/-- Machine for the C3 counterexample: P = 1 under the root; A = 2 in
region 0 of P; B = 3 in region 1 of P (two orthogonal regions). -/
def cexMachC3 : M :=
  let m := emptyM 0
  let m := addStateF 20 m none 1 0 true
  let m := addStateF 20 m (some 1) 2 0 true
  addStateF 20 m (some 1) 3 1 true

/-- Machine for the C7 counterexample: s0 = 1 (entry) with child s1 = 2,
and deep history already set on region 0 of s0. -/
def cexMachC7 : M :=
  let m := emptyM 0
  let m := addStateF 20 m none 1 0 true
  let m := addStateF 20 m (some 1) 2 0 true
  setHistoryM 20 m 1 0 (some Hist.deep)

/-- Scenario S2 after `start` (machine state 0 of the run
start; e0; e2; e1; e0). -/
def s2Step0 : M := startM 20 scenarioS2

/-- Scenario S2 after e0. -/
def s2Step1 : M := processEventF 20 5 s2Step0 0

/-- Scenario S2 after e0; e2. -/
def s2Step2 : M := processEventF 20 5 s2Step1 2

/-- Scenario S2 after e0; e2; e1. -/
def s2Step3 : M := processEventF 20 5 s2Step2 1

/-- Scenario S2 after e0; e2; e1; e0. -/
def s2Step4 : M := processEventF 20 5 s2Step3 0

/-- Machine used by the C7 witness: root 0, s0 = 1 (entry), s1 = 2
(entry of s0), s2 = 3 (entry of s1), and deep history on region (1, 0). -/
def witMachC7 : M :=
  let m := emptyM 0
  let m := addStateF 20 m none 1 0 true
  let m := addStateF 20 m (some 1) 2 0 true
  let m := addStateF 20 m (some 2) 3 0 true
  setHistoryM 20 m 1 0 (some Hist.deep)

/-- Machine used by the C1 witness: a quiescent machine observed while
its processing flag is set (as it is during any dispatch). -/
def witMachC1 : M := { emptyM 0 with processing := true }

/-- Transition record used by the C1 witness: an external transition
1-e0→2 whose action raises. -/
def witTransC1 : Trans :=
  { tsrcSt := 1, tevt := 0, tdst := 2, tholder := 1, tguard := none,
    taction := some { calls := [], raises := true },
    tdata := some { ca := 0, srcOut := some 1, dstOut := 2, tsrc := some 1,
                    tdst := 2 } }

lemma lookupA_updateA {α : Type} (l : List (Nat × α)) (k : Nat) (f : α → α) :
    lookupA (updateA l k f) k = (lookupA l k).map f := by
  induction l with
  | nil => rfl
  | cons p t ih =>
      unfold lookupA updateA at ih ⊢
      simp only [List.map_cons]
      by_cases h : (p.1 == k) = true
      · rw [if_pos h]
        have e1 := List.find?_cons_of_pos (p := fun q : Nat × α => q.1 == k)
          (List.map (fun q => if (q.1 == k) = true then (q.1, f q.2) else q) t)
          (a := (p.1, f p.2)) h
        have e2 := List.find?_cons_of_pos (p := fun q : Nat × α => q.1 == k) t
          (a := p) h
        rw [e1, e2]
        simp
      · rw [if_neg (by simpa using h)]
        have e1 := List.find?_cons_of_neg (p := fun q : Nat × α => q.1 == k)
          (List.map (fun q => if (q.1 == k) = true then (q.1, f q.2) else q) t)
          (a := p) (by simpa using h)
        have e2 := List.find?_cons_of_neg (p := fun q : Nat × α => q.1 == k) t
          (a := p) (by simpa using h)
        rw [e1, e2]
        exact ih

lemma foldl_rootId_inv {β : Type} (l : List β) (g : M → β → M)
    (hg : ∀ m b, (g m b).rootId = m.rootId) (m : M) :
    (l.foldl g m).rootId = m.rootId := by
  induction l generalizing m with
  | nil => rfl
  | cons b t ih => simp only [List.foldl_cons]; rw [ih, hg]

lemma stopImplF_rootId : ∀ fuel m s, (stopImplF fuel m s).rootId = m.rootId := by
  intro fuel
  induction fuel with
  | zero => intro m s; rfl
  | succ n ih =>
      intro m s
      unfold stopImplF
      simp only [setNode, pushTrace]
      apply foldl_rootId_inv
      intro m1 ri
      cases h : getReg m1 s ri with
      | none => simp [h]
      | some r =>
          cases hc : r.rcurrent with
          | none => simp [h, hc, setReg, setNode]
          | some c => simp [h, hc, setReg, setNode, ih]

lemma startedOf_setNode_false (m : M) (s : Sid) :
    startedOf (setNode m s (fun nd => { nd with nstarted := false })) s = false := by
  unfold startedOf getNode setNode
  rw [lookupA_updateA]
  cases lookupA m.nodes s <;> simp

lemma stopImplF_started (n : Nat) (m : M) (s : Sid) :
    startedOf (stopImplF (n + 1) m s) s = false := by
  unfold stopImplF
  apply startedOf_setNode_false

lemma postEventCore_frame (dE : M → Eid → M × Bool) (m : M) (e : Eid)
    (h : m.processing = true) :
    (postEventCore dE m e).nodes = m.nodes ∧
    (postEventCore dE m e).trace = m.trace ∧
    (postEventCore dE m e).processing = true ∧
    (postEventCore dE m e).rootId = m.rootId := by
  unfold postEventCore
  by_cases hs : startedOf m m.rootId <;> simp [hs, h]

lemma deferEventCore_frame (dE : M → Eid → M × Bool) (m : M) (e : Eid)
    (h : m.processing = true) :
    (deferEventCore dE m e).nodes = m.nodes ∧
    (deferEventCore dE m e).trace = m.trace ∧
    (deferEventCore dE m e).processing = true ∧
    (deferEventCore dE m e).rootId = m.rootId := by
  unfold deferEventCore
  by_cases hs : startedOf m m.rootId <;> simp [hs, h]

lemma applyCalls_frame (dE : M → Eid → M × Bool) :
    ∀ (cs : List ECall) (m : M), m.processing = true →
    (applyCalls dE m cs).nodes = m.nodes ∧
    (applyCalls dE m cs).trace = m.trace ∧
    (applyCalls dE m cs).processing = true := by
  intro cs
  induction cs with
  | nil => intro m h; exact ⟨rfl, rfl, h⟩
  | cons c rest ih =>
      intro m h
      cases c with
      | post e =>
          have hf := postEventCore_frame dE m e h
          have := ih (postEventCore dE m e) hf.2.2.1
          simp only [applyCalls, List.foldl_cons] at *
          exact ⟨this.1.trans hf.1, this.2.1.trans hf.2.1, this.2.2⟩
      | defer e =>
          have hf := deferEventCore_frame dE m e h
          have := ih (deferEventCore dE m e) hf.2.2.1
          simp only [applyCalls, List.foldl_cons] at *
          exact ⟨this.1.trans hf.1, this.2.1.trans hf.2.1, this.2.2⟩

lemma getDeepAncestorF_any : ∀ fuel m s ri,
    (getDeepAncestorF fuel m s ri).isSome
      = (regAncestors fuel m s ri).any (regIsDeep m) := by
  intro fuel
  induction fuel with
  | zero => intro m s ri; rfl
  | succ n ih =>
      intro m s ri
      unfold getDeepAncestorF regAncestors
      cases hr : getReg m s ri with
      | none => simp
      | some r =>
          by_cases hd : r.rhist == some Hist.deep
          · simp [hr, hd, regIsDeep]
          · cases hp : parentOf m s with
            | none => simp [hr, hd, hp, regIsDeep]
            | some p => simp [hr, hd, hp, regIsDeep, ih]

lemma gtd2A_isSome_eq_any : ∀ (cf fuel : Nat) (m : M) (cur src dst : Sid),
    (getTransitionData2A cf fuel m cur src dst).isSome
      = (ancRegChain fuel m cur).any (levelHasPeer cf m src) := by
  intro cf fuel
  induction fuel with
  | zero => intro m cur src dst; rfl
  | succ n ih =>
      intro m cur src dst
      unfold getTransitionData2A ancRegChain
      cases hp : parentOf m cur with
      | none => simp
      | some p =>
          cases hr : getReg m p (regIdxOf m cur) with
          | none => simp [hr]
          | some r =>
              cases ho : getOutermost cf m r src cur with
              | none => simp [levelHasPeer, hr, ho, ih]
              | some so => simp [levelHasPeer, hr, ho]

lemma drainPass_eq_filterMap : ∀ (fuel : Nat) (l : List Item) (m : M),
    (drainPassF fuel m l).2
      = (passResults fuel m l).filterMap
          (fun pr => if isDefEvt pr.1 && !pr.2 then some pr.1 else none) := by
  intro fuel l
  induction l with
  | nil => intro m; rfl
  | cons it rest ih =>
      intro m
      cases it with
      | evt e d =>
          unfold drainPassF passResults
          by_cases hr : (processEventImplF fuel m m.rootId e false).2
          · simp [hr, ih, isDefEvt]
          · cases d with
            | false => simp [hr, ih, isDefEvt]
            | true => simp [hr, ih, isDefEvt]
      | closure td =>
          unfold drainPassF passResults
          simp [ih, isDefEvt]

lemma drainPass_all_deferred (fuel : Nat) (l : List Item) (m : M) :
    ∀ it ∈ (drainPassF fuel m l).2, isDefEvt it = true := by
  intro it hit
  rw [drainPass_eq_filterMap] at hit
  rcases List.mem_filterMap.mp hit with ⟨pr, _, hpr⟩
  by_cases h : isDefEvt pr.1 && !pr.2
  · rw [if_pos h] at hpr
    cases hpr
    exact (Bool.and_eq_true_iff.mp h).1
  · rw [if_neg h] at hpr
    cases hpr

lemma drainLoop_all_deferred : ∀ (loops fuel : Nat) (m : M),
    ∀ it ∈ (drainLoopF fuel (loops + 1) m).pending, isDefEvt it = true := by
  intro loops
  induction loops with
  | zero =>
      intro fuel m it hit
      unfold drainLoopF at hit
      by_cases hp : (let m1 := { m with pending := m.pending ++ m.posted, posted := [] }
          let r := drainPassF fuel m1 m1.pending
          ({ r.1 with pending := r.2 } : M)).posted.isEmpty
      · simp only [hp, if_true] at hit
        exact drainPass_all_deferred fuel _ _ it hit
      · simp only [hp, if_false] at hit
        unfold drainLoopF at hit
        exact drainPass_all_deferred fuel _ _ it hit
  | succ n ih =>
      intro fuel m it hit
      unfold drainLoopF at hit
      by_cases hp : (let m1 := { m with pending := m.pending ++ m.posted, posted := [] }
          let r := drainPassF fuel m1 m1.pending
          ({ r.1 with pending := r.2 } : M)).posted.isEmpty
      · simp only [hp, if_true] at hit
        exact drainPass_all_deferred fuel _ _ it hit
      · simp only [hp, if_false] at hit
        exact ih fuel _ it hit

lemma lookupA_mem {α : Type} {l : List (Nat × α)} {k : Nat} {v : α}
    (h : lookupA l k = some v) : (k, v) ∈ l := by
  unfold lookupA at h
  cases hf : l.find? (fun p => p.1 == k) with
  | none => rw [hf] at h; cases h
  | some p =>
      rw [hf] at h
      have hm := List.mem_of_find?_eq_some hf
      have hp := List.find?_some hf
      simp at h hp
      rcases p with ⟨k1, v1⟩
      simp at hp h
      subst hp
      subst h
      exact hm

lemma coherent_child {m : M} {x p : Sid} {nd : Node}
    (hco : coherentB m = true) (hx : getNode m x = some nd)
    (hp : nd.nparent = some p) :
    ∃ r, getReg m p nd.nregIdx = some r ∧ x ∈ r.rchildren := by
  have hmem := lookupA_mem hx
  have hall := List.all_eq_true.mp hco _ hmem
  simp only [hp] at hall
  cases hr : getReg m p nd.nregIdx with
  | none => rw [hr] at hall; cases hall
  | some r =>
      rw [hr] at hall
      exact ⟨r, rfl, by simpa using hall⟩

lemma containsF_self (n : Nat) (m : M) (s : Sid) :
    containsF (n + 1) m s s = true := by
  unfold containsF
  simp

lemma contains_of_parent {m : M} {x p : Sid} (hco : coherentB m = true)
    (hx : parentOf m x = some p) (n : Nat) :
    containsF (n + 2) m p x = true := by
  unfold parentOf at hx
  cases hnd : getNode m x with
  | none => rw [hnd] at hx; cases hx
  | some nd =>
      rw [hnd] at hx
      simp at hx
      obtain ⟨r, hr, hmem⟩ := coherent_child hco hnd hx
      unfold containsF
      unfold getReg at hr
      cases hpn : getNode m p with
      | none => rw [hpn] at hr; cases hr
      | some ndp =>
          rw [hpn] at hr
          simp at hr
          have hrm := lookupA_mem hr
          simp only [hpn, Bool.or_eq_true, beq_iff_eq]
          right
          rw [List.any_eq_true]
          refine ⟨(nd.nregIdx, r), hrm, ?_⟩
          rw [List.any_eq_true]
          exact ⟨x, hmem, containsF_self (n + 0) m x⟩

lemma selfParentFree_ne {m : M} {x p : Sid} (hsp : selfParentFreeB m = true)
    (hx : parentOf m x = some p) : x ≠ p := by
  intro he
  subst he
  unfold parentOf at hx
  cases hnd : getNode m x with
  | none => rw [hnd] at hx; cases hx
  | some nd =>
      rw [hnd] at hx
      simp at hx
      have hmem := lookupA_mem hnd
      have hall := List.all_eq_true.mp hsp _ hmem
      simp [hx] at hall

lemma checkStep_eq (fuel : Nat) (m : M) (hco : coherentB m = true)
    (hsp : selfParentFreeB m = true) (hf2 : 2 ≤ fuel) (x p : Sid)
    (L : List Sid) :
    checkStatesImplF fuel m p (some p) (x :: L)
      = ((startedOf m x && (parentOf m x == some p)) &&
          (match L with
           | [] => true
           | _ => checkStatesImplF fuel m x (some x) L)) := by
  conv_lhs => unfold checkStatesImplF
  by_cases hc : containsF fuel m p x = true
  · by_cases hxp : x = p
    · subst hxp
      have hpp : (parentOf m x == some x) = false := by
        cases hq : parentOf m x with
        | none => rfl
        | some q =>
            have hne : x ≠ q := selfParentFree_ne hsp hq
            simpa using fun he => hne he.symm
      simp [findDescF, hc, hpp]
    · by_cases hst2 : startedOf m x = true
      · by_cases hpar : (parentOf m x == some p) = true
        · simp [findDescF, hc, hxp, hst2, hpar]
        · have hpar2 : (parentOf m x == some p) = false := by
            simpa using hpar
          simp [findDescF, hc, hxp, hst2, hpar2]
      · have hst3 : startedOf m x = false := by simpa using hst2
        simp [findDescF, hc, hxp, hst3]
  · have hne : (startedOf m x && (parentOf m x == some p)) = false := by
      cases hst2 : startedOf m x with
      | false => rfl
      | true =>
          cases hpar : parentOf m x == some p with
          | false => rfl
          | true =>
              exfalso
              apply hc
              obtain ⟨n, rfl⟩ : ∃ n, fuel = n + 2 := ⟨fuel - 2, by omega⟩
              exact contains_of_parent hco (by simpa using hpar) n
    simp [findDescF, hc, hne]

lemma checkChain_eq (fuel : Nat) (m : M) (hco : coherentB m = true)
    (hsp : selfParentFreeB m = true) (hf2 : 2 ≤ fuel) :
    ∀ (l : List Sid) (x p : Sid),
      checkStatesImplF fuel m p (some p) (x :: l) = chainOk m p (x :: l) := by
  intro l
  induction l with
  | nil =>
      intro x p
      rw [checkStep_eq fuel m hco hsp hf2]
      simp [chainOk, Bool.and_assoc]
  | cons y rest ih =>
      intro x p
      rw [checkStep_eq fuel m hco hsp hf2]
      simp [ih y x, chainOk, Bool.and_assoc]

lemma started_implies_root {m : M} {x : Sid}
    (hroot : rootStartGuardB m = true) (hx : startedOf m x = true) :
    startedOf m m.rootId = true := by
  unfold startedOf at hx
  cases hnd : getNode m x with
  | none => rw [hnd] at hx; cases hx
  | some nd =>
      rw [hnd] at hx
      simp at hx
      have hmem := lookupA_mem hnd
      have hall := List.all_eq_true.mp hroot _ hmem
      simp [hx] at hall
      exact hall

/-- C9: stopping a machine twice in a row produces exactly the same
machine state — started flags, region currents, last-visited markers —
and the same callback trace (in particular the same `on_exit` sequence)
as stopping it once: the second `stop` sees the started flag cleared and
performs nothing. -/
theorem c9_stop_idempotent (fuel : Nat) (m : M) :
    stopM fuel (stopM fuel m) = stopM fuel m := by
  unfold stopM
  by_cases h : startedOf m m.rootId
  · simp only [h, Bool.not_true, Bool.false_eq_true, if_false]
    cases fuel with
    | zero => simp [stopImplF, h]
    | succ n =>
        have hr := stopImplF_rootId (n + 1) m m.rootId
        have hs := stopImplF_started n m m.rootId
        rw [hr, hs]
        simp
  · simp [h]

/-- C10: a `transit<D>` call made while the machine is not processing is
a complete no-op — no callback runs, and configuration, history and
queues are untouched — whenever the machine is not started, or the
destination does not exist, or the destination is already started. -/
theorem c10_transit_noop (fuel : Nat) (m : M) (s d : Sid)
    (hp : m.processing = false)
    (h : startedOf m m.rootId = false ∨ findDescF fuel m m.rootId d = none ∨
      startedOf m d = true) :
    transitF fuel m s d = m := by
  unfold transitF
  rcases h with h | h | h
  · simp [h]
  · by_cases hs : startedOf m m.rootId
    · simp [hs, h]
    · simp [hs]
  · by_cases hs : startedOf m m.rootId
    · cases hf : findDescF fuel m m.rootId d with
      | none => simp [hs, hf]
      | some x =>
          have hx : x = d := by
            unfold findDescF at hf
            by_cases hc : containsF fuel m m.rootId d <;> simp [hc] at hf
            exact hf.symm
          subst hx
          simp [hs, hf, h]
    · simp [hs]

theorem c10_witness :
    (emptyM 0).processing = false ∧
    transitF 5 (emptyM 0) 0 1 = emptyM 0 :=
  ⟨rfl, c10_transit_noop 5 (emptyM 0) 0 1 rfl (Or.inl rfl)⟩

/-- C1 (amended): when the guard or the action of an external transition
raises during dispatch, the failure is caught in the transition closure,
`on_error` runs on the transition's source state, and the transit is
abandoned: the closure returns false, the configuration (every node,
started flags, region currents and history markers included) is left
untouched, and no entry or exit callback runs. -/
theorem c1_callback_failure_aborts_transit (fuel : Nat)
    (dE : M → Eid → M × Bool) (m : M) (t : Trans) (td : TData) (s0 : Sid)
    (hp : m.processing = true) (hd : t.tdata = some td)
    (hs : td.tsrc = some s0)
    (hf : t.tguard = some GuardB.raise ∨
      ((t.tguard = none ∨ t.tguard = some (GuardB.ret true)) ∧
        ∃ a, t.taction = some a ∧ a.raises = true)) :
    (execCbF fuel dE m t).2 = false ∧
    (execCbF fuel dE m t).1.nodes = m.nodes ∧
    (execCbF fuel dE m t).1.trace.getLast? = some (TraceEv.error s0) ∧
    ((execCbF fuel dE m t).1.trace.drop m.trace.length).all
      (fun ev => match ev with
        | TraceEv.enter _ => false
        | TraceEv.leave _ => false
        | _ => true) = true := by
  rcases hf with hg | ⟨hg, a, ha, hra⟩
  · unfold execCbF
    simp [hg, hd, hs, pushTrace, List.getLast?_concat, List.drop_left]
  · have haf := applyCalls_frame dE a.calls
      (pushTrace (match t.tguard with
        | some (GuardB.ret true) => pushTrace m (TraceEv.guardRun t.tholder)
        | _ => m) (TraceEv.actionRun t.tholder))
      (by cases hg with
          | inl h => simp [h, pushTrace, hp]
          | inr h => simp [h, pushTrace, hp])
    cases hg with
    | inl hgn =>
        unfold execCbF
        simp only [hgn] at haf ⊢
        simp [pushTrace] at haf
        simp [ha, hra, hd, hs, pushTrace, haf.1, haf.2.1,
          List.getLast?_concat, List.append_assoc, List.drop_left]
    | inr hgt =>
        unfold execCbF
        simp only [hgt] at haf ⊢
        simp [pushTrace] at haf
        simp [ha, hra, hd, hs, pushTrace, haf.1, haf.2.1,
          List.getLast?_concat, List.append_assoc, List.drop_left]

theorem c1_witness :
    witMachC1.processing = true ∧
    (execCbF 5 (fun m _ => (m, false)) witMachC1 witTransC1).2 = false ∧
    (execCbF 5 (fun m _ => (m, false)) witMachC1 witTransC1).1.nodes
      = witMachC1.nodes ∧
    (execCbF 5 (fun m _ => (m, false)) witMachC1 witTransC1).1.trace.getLast?
      = some (TraceEv.error 1) := by
  have h := c1_callback_failure_aborts_transit 5 (fun m _ => (m, false))
    witMachC1 witTransC1
    { ca := 0, srcOut := some 1, dstOut := 2, tsrc := some 1, tdst := 2 } 1
    rfl rfl rfl
    (Or.inr ⟨Or.inl rfl, { calls := [], raises := true }, rfl, rfl⟩)
  exact ⟨rfl, h.1, h.2.1, h.2.2.1⟩

/-- C6: every failing builder operation leaves the machine's topology
(states, regions, entry children and transition maps, i.e. the whole node
registry) exactly as it was: operations on a started machine return the
machine unchanged, and a duplicate state kind, a second entry child for a
region, or a duplicate event on a source state are all rejected before
any mutation. -/
theorem c6_builder_failure_noop :
    (∀ fuel m p c ri e, startedOf m m.rootId = true →
      addStateF fuel m p c ri e = m) ∧
    (∀ fuel m p c ri e, (findDescF fuel m m.rootId c).isSome = true →
      (addStateF fuel m p c ri e).nodes = m.nodes) ∧
    (∀ fuel m p c ri pid r,
      (match p with
       | none => some m.rootId
       | some q => findDescF fuel m m.rootId q) = some pid →
      getReg m pid ri = some r →
      r.rchildren.any (fun x => entryOf m x) = true →
      (addStateF fuel m p c ri true).nodes = m.nodes) ∧
    (∀ fuel m s e d h g a, startedOf m m.rootId = true →
      addTransitionF fuel m s e d h g a = m) ∧
    (∀ fuel m s e d h g a t0,
      (getNode m s).bind (fun nd => lookupA nd.ntrans e) = some t0 →
      (addTransitionF fuel m s e d h g a).nodes = m.nodes) := by
  refine ⟨?_, ?_, ?_, ?_, ?_⟩
  · intro fuel m p c ri e h
    unfold addStateF
    simp [h]
  · intro fuel m p c ri e h
    unfold addStateF
    by_cases hs : startedOf m m.rootId
    · simp [hs]
    · cases hp : (match p with
        | none => some m.rootId
        | some q => findDescF fuel m m.rootId q) with
      | none => simp [hs, hp, errRoot, pushTrace]
      | some pid => simp [hs, hp, h, errRoot, pushTrace]
  · intro fuel m p c ri pid r hp hr he
    unfold addStateF
    by_cases hs : startedOf m m.rootId
    · simp [hs]
    · by_cases hdup : (findDescF fuel m m.rootId c).isSome
      · simp [hs, hp, hdup, errRoot, pushTrace]
      · simp [hs, hp, hdup, hr, he, errRoot, pushTrace]
  · intro fuel m s e d h g a hst
    unfold addTransitionF
    simp [hst]
  · intro fuel m s e d h g a t0 hdup
    unfold addTransitionF
    by_cases hs : startedOf m m.rootId
    · simp [hs]
    · by_cases h1 : (findDescF fuel m m.rootId s).isNone
      · simp [hs, h1, errRoot, pushTrace]
      · by_cases h2 : (findDescF fuel m m.rootId d).isNone
        · simp [hs, h1, h2, errRoot, pushTrace]
        · by_cases h3 : (findDescF fuel m m.rootId h).isNone
          · simp [hs, h1, h2, h3, errRoot, pushTrace]
          · by_cases h4 : containsF fuel m h s
            · cases hdat : (if s != d then
                  match getTransitionData2 fuel m d s d with
                  | none => none
                  | some td => some (some td)
                else some none) with
              | none => simp [hs, h1, h2, h3, h4, hdat, errRoot, pushTrace]
              | some td? => simp [hs, h1, h2, h3, h4, hdat, hdup, errRoot, pushTrace]
            · simp [hs, h1, h2, h3, h4, errRoot, pushTrace]

theorem c6_witness :
    startedOf (startM 20 scenarioS2) (startM 20 scenarioS2).rootId = true ∧
    addStateF 20 (startM 20 scenarioS2) none 9 0 false = startM 20 scenarioS2 ∧
    (findDescF 20 scenarioS2 scenarioS2.rootId 2).isSome = true ∧
    (addStateF 20 scenarioS2 none 2 0 false).nodes = scenarioS2.nodes ∧
    (addStateF 20 scenarioS2 none 9 0 true).nodes = scenarioS2.nodes ∧
    (addTransitionF 20 scenarioS2 1 0 4 1 none none).nodes = scenarioS2.nodes :=
  ⟨by decide,
   c6_builder_failure_noop.1 20 (startM 20 scenarioS2) none 9 0 false (by decide),
   by decide,
   c6_builder_failure_noop.2.1 20 scenarioS2 none 2 0 false (by decide),
   c6_builder_failure_noop.2.2.1 20 scenarioS2 none 9 0 0
     { rentry := some 1, rcurrent := none, rlast := none,
       rhist := some Hist.shallow, rchildren := [1, 2] }
     (by decide) (by decide) (by decide),
   c6_builder_failure_noop.2.2.2.2 20 scenarioS2 1 0 4 1 none none
     { tsrcSt := 1, tevt := 0, tdst := 2, tholder := 1, tguard := none,
       taction := none,
       tdata := some { ca := 0, srcOut := some 1, dstOut := 2, tsrc := some 1,
                       tdst := 2 } }
     (by decide)⟩

/-- C7 (amended): on an unstarted machine, `set_history(Shallow)` on a
region R is rejected — leaving the whole machine, in particular R's mode
and last-visited marker, unchanged — exactly when R itself or some region
strictly containing R carries Deep history (the walk `regAncestors`
starts at R itself); otherwise it stores Shallow as R's mode and clears
R's last-visited marker.  Descendant regions are never consulted. -/
theorem c7_set_shallow_checks_self_and_ancestors (fuel : Nat) (m : M)
    (s : Sid) (ri : Nat) (r : Reg)
    (hst : startedOf m m.rootId = false)
    (hfd : containsF fuel m m.rootId s = true)
    (hr : getReg m s ri = some r) :
    ((regAncestors fuel m s ri).any (regIsDeep m) = true →
      setHistoryM fuel m s ri (some Hist.shallow) = m) ∧
    ((regAncestors fuel m s ri).any (regIsDeep m) = false →
      setHistoryM fuel m s ri (some Hist.shallow) =
        setReg m s ri
          (fun r0 => { r0 with rhist := some Hist.shallow, rlast := none })) := by
  have hda := getDeepAncestorF_any fuel m s ri
  constructor
  · intro hany
    unfold setHistoryM
    rw [hany] at hda
    simp [hst, findDescF, hfd, hr, setHistoryRegF, hda]
  · intro hany
    unfold setHistoryM
    rw [hany] at hda
    simp [hst, findDescF, hfd, hr, setHistoryRegF, hda]

theorem c7_witness :
    (regAncestors 20 witMachC7 2 0).any (regIsDeep witMachC7) = true ∧
    setHistoryM 20 witMachC7 2 0 (some Hist.shallow) = witMachC7 ∧
    (regAncestors 20 scenarioS2 2 0).any (regIsDeep scenarioS2) = false ∧
    setHistoryM 20 scenarioS2 2 0 (some Hist.shallow) =
      setReg scenarioS2 2 0
        (fun r0 => { r0 with rhist := some Hist.shallow, rlast := none }) :=
  ⟨by decide,
   (c7_set_shallow_checks_self_and_ancestors 20 witMachC7 2 0
     { rentry := some 3, rcurrent := none, rlast := none, rhist := none,
       rchildren := [3] } (by decide) (by decide) (by decide)).1 (by decide),
   by decide,
   (c7_set_shallow_checks_self_and_ancestors 20 scenarioS2 2 0
     { rentry := some 3, rcurrent := none, rlast := none, rhist := none,
       rchildren := [3, 4] } (by decide) (by decide) (by decide)).2 (by decide)⟩

/-- C7 counterexample: region (1,0) of `cexMachC7` carries Deep history
itself while no region strictly containing it is Deep; the claim as
stated then requires `set_history(Shallow)` to succeed, but the engine
rejects it and the mode stays Deep. -/
theorem c7_cex :
    ((regAncestors 20 cexMachC7 1 0).drop 1).any (regIsDeep cexMachC7) = false ∧
    (getReg cexMachC7 1 0).map (fun r => r.rhist) = some (some Hist.deep) ∧
    (getReg (setHistoryM 20 cexMachC7 1 0 (some Hist.shallow)) 1 0).map
      (fun r => r.rhist) = some (some Hist.deep) := by
  decide

/-- C3 (amended): resolving the `TransitionData` of an external
transition from S to D succeeds exactly when, at some level of the
upward walk from D, the region holding the D-branch child also holds a
different child whose subtree contains S; when no such level exists — in
particular for states in different orthogonal regions, for nested source
and destination, and for disconnected trees — `addTransition` rejects
the transition with a CrossingRegions error, reported through `onError`
on the machine, leaving the node registry unchanged. -/
theorem c3_resolver_characterisation :
    (∀ (cf fuel : Nat) (m : M) (cur src dst : Sid),
      (getTransitionData2A cf fuel m cur src dst).isSome
        = (ancRegChain fuel m cur).any (levelHasPeer cf m src)) ∧
    (∀ (fuel : Nat) (m : M) (s e d h : Sid) (g : Option GuardB)
        (a : Option ActionB),
      s ≠ d →
      startedOf m m.rootId = false →
      containsF fuel m m.rootId s = true →
      containsF fuel m m.rootId d = true →
      containsF fuel m m.rootId h = true →
      containsF fuel m h s = true →
      (ancRegChain fuel m d).any (levelHasPeer fuel m s) = false →
      (addTransitionF fuel m s e d h g a).nodes = m.nodes ∧
      (addTransitionF fuel m s e d h g a).trace
        = m.trace ++ [TraceEv.error m.rootId]) := by
  refine ⟨gtd2A_isSome_eq_any, ?_⟩
  intro fuel m s e d h g a hne hst hcs hcd hch hcon hany
  have hdat : getTransitionData2 fuel m d s d = none := by
    have := gtd2A_isSome_eq_any fuel fuel m d s d
    rw [hany] at this
    unfold getTransitionData2
    exact Option.not_isSome_iff_eq_none.mp (by simp [this])
  have hne2 : (s != d) = true := by simp [hne]
  unfold addTransitionF
  simp [hst, findDescF, hcs, hcd, hch, hcon, hne2, hdat, errRoot, pushTrace]

theorem c3_cex :
    parentOf cexMachC3 2 = some 1 ∧
    containsF 20 cexMachC3 1 3 = true ∧
    getTransitionData2 20 cexMachC3 3 2 3 = none ∧
    (addTransitionF 20 cexMachC3 2 9 3 2 none none).nodes = cexMachC3.nodes ∧
    (addTransitionF 20 cexMachC3 2 9 3 2 none none).trace
      = [TraceEv.error 0] := by
  decide

theorem c3_witness :
    (getTransitionData2A 20 20 scenarioS2 2 1 2).isSome
      = (ancRegChain 20 scenarioS2 2).any (levelHasPeer 20 scenarioS2 1) ∧
    (ancRegChain 20 cexMachC3 3).any (levelHasPeer 20 cexMachC3 2) = false ∧
    (addTransitionF 20 cexMachC3 2 9 3 2 none none).nodes = cexMachC3.nodes ∧
    (addTransitionF 20 cexMachC3 2 9 3 2 none none).trace
      = cexMachC3.trace ++ [TraceEv.error cexMachC3.rootId] :=
  ⟨c3_resolver_characterisation.1 20 20 scenarioS2 2 1 2,
   by decide,
   (c3_resolver_characterisation.2 20 cexMachC3 2 9 3 2 none none
     (by decide) (by decide) (by decide) (by decide) (by decide) (by decide)
     (by decide)).1,
   (c3_resolver_characterisation.2 20 cexMachC3 2 9 3 2 none none
     (by decide) (by decide) (by decide) (by decide) (by decide) (by decide)
     (by decide)).2⟩

/-- C5: in the run-to-completion drain, a pass over the pending deque
removes every item that is not a deferred event (posted events after
their single dispatch attempt whether or not a transition fired, transit
closures after execution), and retains exactly the deferred events whose
dispatch — performed on the machine as evolved through the earlier items
of the pass — returned false; consequently after any run of the outer
drain loop only deferred events remain queued, and a deferred event
disappears from the queue exactly at a pass in which its dispatch
returned true. -/
theorem c5_drain_loop_retention :
    (∀ (fuel : Nat) (l : List Item) (m : M),
      (drainPassF fuel m l).2
        = (passResults fuel m l).filterMap
            (fun pr => if isDefEvt pr.1 && !pr.2 then some pr.1 else none)) ∧
    (∀ (fuel : Nat) (l : List Item) (m : M),
      ∀ it ∈ (drainPassF fuel m l).2, isDefEvt it = true) ∧
    (∀ (loops fuel : Nat) (m : M),
      ∀ it ∈ (drainLoopF fuel (loops + 1) m).pending, isDefEvt it = true) :=
  ⟨drainPass_eq_filterMap, drainPass_all_deferred, drainLoop_all_deferred⟩

theorem c5_witness :
    isDefEvt (Item.evt 9 true) = true ∧
    Item.evt 7 false ∉ (drainPassF 5 (emptyM 0) [Item.evt 7 false, Item.evt 9 true]).2 :=
  ⟨c5_drain_loop_retention.2.1 5 [Item.evt 7 false, Item.evt 9 true] (emptyM 0)
     (Item.evt 9 true) (by decide),
   fun hmem => by
     have := c5_drain_loop_retention.2.1 5 [Item.evt 7 false, Item.evt 9 true]
       (emptyM 0) (Item.evt 7 false) hmem
     simp [isDefEvt] at this⟩

/-- C8: `check_states<S1, …, Sn>` on the machine returns true exactly
when S1 is a started descendant of the root and every following state is
a started direct child of its predecessor (a pack starting with the
machine's own kind anchors the chain at the root); skipping an
intermediate ancestor therefore yields false, and every pack yields
false on a machine that is not started. -/
theorem c8_check_states_characterisation (fuel : Nat) (m : M)
    (hco : coherentB m = true) (hsp : selfParentFreeB m = true)
    (hroot : rootStartGuardB m = true) (hf2 : 2 ≤ fuel) :
    (∀ l, checkStatesF fuel m l = specCheckStates fuel m l) ∧
    (startedOf m m.rootId = false → ∀ l, checkStatesF fuel m l = false) := by
  have hself : containsF fuel m m.rootId m.rootId = true := by
    obtain ⟨n, rfl⟩ : ∃ n, fuel = n + 2 := ⟨fuel - 2, by omega⟩
    exact containsF_self (n + 1) m m.rootId
  have part1 : ∀ l, checkStatesF fuel m l = specCheckStates fuel m l := by
    intro l
    cases l with
    | nil => rfl
    | cons x rest =>
        by_cases hx : (x == m.rootId) = true
        · have hxe : x = m.rootId := by simpa using hx
          subst hxe
          cases rest with
          | nil =>
              simp [checkStatesF, specCheckStates, checkStatesImplF, hself,
                chainOk]
          | cons y r2 =>
              have hch := checkChain_eq fuel m hco hsp hf2 r2 y m.rootId
              simp only [checkStatesF, beq_self_eq_true, if_true,
                specCheckStates]
              rw [hch]
              cases hcv : chainOk m m.rootId (y :: r2) with
              | false => simp [hcv]
              | true =>
                  have hsty : startedOf m y = true := by
                    unfold chainOk at hcv
                    exact (Bool.and_eq_true_iff.mp
                      (Bool.and_eq_true_iff.mp hcv).1).1
                  have hrt := started_implies_root hroot hsty
                  simp [hself, hrt]
        · simp only [checkStatesF, hx, if_false, specCheckStates]
          conv_lhs => unfold checkStatesImplF
          by_cases hcx : containsF fuel m m.rootId x = true
          · by_cases hstx : startedOf m x = true
            · cases rest with
              | nil => simp [findDescF, hcx, hstx, chainOk]
              | cons y r2 =>
                  have hch := checkChain_eq fuel m hco hsp hf2 r2 y x
                  simp [findDescF, hcx, hstx, hch]
            · have hsf : startedOf m x = false := by simpa using hstx
              simp [findDescF, hcx, hsf]
          · have hcf : containsF fuel m m.rootId x = false := by simpa using hcx
            simp [findDescF, hcf]
  refine ⟨part1, ?_⟩
  intro hst l
  rw [part1 l]
  cases l with
  | nil => rfl
  | cons x rest =>
      cases hstx : startedOf m x with
      | false => simp [specCheckStates, hstx]
      | true =>
          exfalso
          rw [started_implies_root hroot hstx] at hst
          cases hst

theorem c8_witness :
    coherentB scenarioS2 = true ∧
    selfParentFreeB scenarioS2 = true ∧
    rootStartGuardB scenarioS2 = true ∧
    checkStatesF 20 (startM 20 scenarioS2) [2, 3]
      = specCheckStates 20 (startM 20 scenarioS2) [2, 3] ∧
    checkStatesF 20 scenarioS2 [1] = false :=
  ⟨by decide, by decide, by decide,
   (c8_check_states_characterisation 20 (startM 20 scenarioS2) (by decide)
     (by decide) (by decide) (by decide)).1 [2, 3],
   (c8_check_states_characterisation 20 scenarioS2 (by decide) (by decide)
     (by decide) (by decide)).2 (by decide) [1]⟩

/-- C1 counterexample: on `cexMachC1` the transition s0-e0→s1 has an
action that raises; the claim as stated requires the engine to go on
with the transit (exit s0, enter s1), but after `processEvent(e0)` the
machine is still in s0, s1 was never entered, no exit callback ran, and
`on_error` ran on the source state 1. -/
theorem c1_cex :
    activeIds (processEventF 20 5 (startM 20 cexMachC1) 0) = [0, 1] ∧
    startedOf (processEventF 20 5 (startM 20 cexMachC1) 0) 2 = false ∧
    (processEventF 20 5 (startM 20 cexMachC1) 0).trace
      = [TraceEv.enter 0, TraceEv.enter 1, TraceEv.actionRun 1,
         TraceEv.error 1] := by
  decide

/-- C2: on `cexMachC2` (transition s0-e0→s1 whose action posts e1, and
s1-e1→s2), a `processEvent(e0)` from outside drains the posted e1 and
ends in s2 with an empty posted queue, while a `postEvent(e0)` from
outside performs the single dispatch with no drain loop: it ends in s1
and leaves e1 sitting unprocessed in the posted queue — contradicting
the documented equivalence of the two calls. -/
theorem c2_post_event_missing_drain :
    activeIds (processEventF 20 5 (startM 20 cexMachC2) 0) = [0, 3] ∧
    (processEventF 20 5 (startM 20 cexMachC2) 0).posted = [] ∧
    activeIds (postEventF 20 (startM 20 cexMachC2) 0) = [0, 2] ∧
    (postEventF 20 (startM 20 cexMachC2) 0).posted = [Item.evt 1 false] := by
  decide

/-- C4: in the S2 topology with shallow history on the root region, the
run start; e0; e2; e1; e0 passes through the active configurations
{s0}, {s1, s2}, {s1, s3}, {s0} and finally {s1, s2}: the root region
re-enters s1 while s1's inner region re-enters its entry child s2, not
the last-visited s3.  (Ids: root 0, s0 1, s1 2, s2 3, s3 4; the machine
root belongs to every active configuration.) -/
theorem c4_shallow_history_scenario :
    activeIds s2Step0 = [0, 1] ∧
    activeIds s2Step1 = [0, 2, 3] ∧
    activeIds s2Step2 = [0, 2, 4] ∧
    activeIds s2Step3 = [0, 1] ∧
    activeIds s2Step4 = [0, 2, 3] := by
  decide

end DSM
